import Mathlib

/-! Verification of the regex-generator model module (src/model/regexPatterns.js).

The first part embeds the JavaScript module: each generator is a Lean
function from an options record (a list of string-keyed booleans, a missing
key reading as `false`, like an absent property in JavaScript) to a record
of a pattern string and a flags string, and the registry `RegexCategories`
is a list of keyed category descriptors mirroring the source dictionary.

The second part gives semantics to the generated pattern strings: a syntax
tree type `Regex` for the fragment of JavaScript regex syntax the module
uses, a printing function showing each tree denotes exactly the string the
generator emits, a whole-string matching semantics `Lang` (the meaning of a
pattern anchored by a leading caret and a trailing dollar), a transform
`Regex.ciClose` modelling the case-insensitive flag, and a matcher `matchB`
built on Brzozowski derivatives, proved equivalent to `Lang` so that
concrete match facts are decidable. -/

namespace RegexGen

/-- An options record, as the generators see it: JavaScript object property
access `options.someFlag` is embedded as a keyed lookup that yields `false`
when the key is absent (absent property, falsy). -/
abbrev Options := List (String × Bool)

/-- `getOpt options key` embeds the JavaScript truthiness test
`options.key` for a checkbox-valued criterion. -/
def getOpt (options : Options) (key : String) : Bool :=
  (options.lookup key).getD false

/-- The result record `{pattern, flags}` returned by every generator. -/
structure GeneratedPattern where
  pattern : String
  flags : String
deriving DecidableEq

/-- Embeds `generateEmailRegex` from src/model/regexPatterns.js.  The two
pattern strings are the exact JavaScript string values (JS `\\.` denotes
the two characters backslash dot, written the same way in Lean). -/
def generateEmailRegex (options : Options := []) : GeneratedPattern :=
  { pattern := "^" ++
      (if getOpt options "allowSubdomains" then
        "[a-zA-Z0-9._%+-]+@[a-zA-Z0-9.-]+\\.[a-zA-Z]\x7b2,63\x7d(\\.[a-zA-Z]\x7b2\x7d)?"
      else
        "[a-zA-Z0-9._%+-]+@[a-zA-Z0-9.-]+\\.[a-zA-Z]\x7b2,63\x7d") ++ "$",
    flags := "i" }

/-- Embeds `generateCPFRegex` from src/model/regexPatterns.js. -/
def generateCPFRegex (options : Options := []) : GeneratedPattern :=
  { pattern := "^" ++
      (if getOpt options "allowOptionalSymbols" then
        "\\d\x7b3\x7d\\.?\\d\x7b3\x7d\\.?\\d\x7b3\x7d-?\\d\x7b2\x7d"
      else
        "\\d\x7b3\x7d\\.\\d\x7b3\x7d\\.\\d\x7b3\x7d-\\d\x7b2\x7d") ++ "$",
    flags := "" }

/-- Embeds `generateCEPRegex` from src/model/regexPatterns.js. -/
def generateCEPRegex (options : Options := []) : GeneratedPattern :=
  { pattern := "^" ++
      (if getOpt options "allowOptionalSymbols" then
        "\\d\x7b5\x7d-?\\d\x7b3\x7d"
      else
        "\\d\x7b5\x7d-\\d\x7b3\x7d") ++ "$",
    flags := "" }

/-- Embeds `generateUUIDRegex` from src/model/regexPatterns.js; the
JavaScript function takes no parameters. -/
def generateUUIDRegex : GeneratedPattern :=
  { pattern :=
      "^[0-9a-f]\x7b8\x7d-[0-9a-f]\x7b4\x7d-4[0-9a-f]\x7b3\x7d-[89ab][0-9a-f]\x7b3\x7d-[0-9a-f]\x7b12\x7d$",
    flags := "i" }

/-- Embeds `generateIPv4Regex` from src/model/regexPatterns.js.  In the
JavaScript template literal the escape `\/` denotes the single character
slash, so the emitted CIDR group contains a plain `/`. -/
def generateIPv4Regex (options : Options := []) : GeneratedPattern :=
  { pattern := "^" ++
      (if getOpt options "allowCIDR" then
        "(?:25[0-5]|2[0-4]\\d|1\\d\x7b2\x7d|[1-9]?\\d)\\.(?:25[0-5]|2[0-4]\\d|1\\d\x7b2\x7d|[1-9]?\\d)\\.(?:25[0-5]|2[0-4]\\d|1\\d\x7b2\x7d|[1-9]?\\d)\\.(?:25[0-5]|2[0-4]\\d|1\\d\x7b2\x7d|[1-9]?\\d)(?:/(?:[0-9]|[12][0-9]|3[0-2]))?"
      else
        "(?:25[0-5]|2[0-4]\\d|1\\d\x7b2\x7d|[1-9]?\\d)\\.(?:25[0-5]|2[0-4]\\d|1\\d\x7b2\x7d|[1-9]?\\d)\\.(?:25[0-5]|2[0-4]\\d|1\\d\x7b2\x7d|[1-9]?\\d)\\.(?:25[0-5]|2[0-4]\\d|1\\d\x7b2\x7d|[1-9]?\\d)") ++ "$",
    flags := "" }

/-- One criterion definition from the registry (id, label, control type,
default value). -/
structure Criterion where
  id : String
  label : String
  type : String
  default : Bool

/-- One registry entry: display name, generator function, criteria list. -/
structure CategoryDescriptor where
  name : String
  generator : Options → GeneratedPattern
  criteria : List Criterion

/-- The `email` entry of the source registry. -/
def emailCategory : CategoryDescriptor :=
  { name := "E-mail",
    generator := fun options => generateEmailRegex options,
    criteria := [{ id := "allowSubdomains",
                   label := "Permitir subdomínios (.ex: \".com\" , \".com.br\")",
                   type := "checkbox", default := false }] }

/-- The `cpf` entry of the source registry. -/
def cpfCategory : CategoryDescriptor :=
  { name := "CPF (Formato)",
    generator := fun options => generateCPFRegex options,
    criteria := [{ id := "allowOptionalSymbols",
                   label := "Permitir símbolos opcionais",
                   type := "checkbox", default := true }] }

/-- The `cep` entry of the source registry. -/
def cepCategory : CategoryDescriptor :=
  { name := "CEP",
    generator := fun options => generateCEPRegex options,
    criteria := [{ id := "allowOptionalSymbols",
                   label := "Permitir símbolos opcionais",
                   type := "checkbox", default := true }] }

/-- The `uuid` entry of the source registry; the stored JavaScript function
ignores any argument it is given. -/
def uuidCategory : CategoryDescriptor :=
  { name := "UUID v4",
    generator := fun _ => generateUUIDRegex,
    criteria := [] }

/-- The `ipv4` entry of the source registry. -/
def ipv4Category : CategoryDescriptor :=
  { name := "IPv4 (Endereço)",
    generator := fun options => generateIPv4Regex options,
    criteria := [{ id := "allowCIDR",
                   label := "Permitir sufixo CIDR (ex: /24)",
                   type := "checkbox", default := false }] }

/-- Embeds the `RegexCategories` dictionary, in source order. -/
def RegexCategories : List (String × CategoryDescriptor) :=
  [("email", emailCategory), ("cpf", cpfCategory), ("cep", cepCategory),
   ("uuid", uuidCategory), ("ipv4", ipv4Category)]

/-- The options record obtained by filling every declared criterion of a
category with its registry default value. -/
def defaultsOf (d : CategoryDescriptor) : Options :=
  d.criteria.map fun c => (c.id, c.default)

/-- One item of a regex character class: a single character or a range. -/
inductive CItem where
  | ch (c : Char)
  | rng (a b : Char)

/-- Whether a character is matched by one class item. -/
def cmem (c : Char) : CItem → Bool
  | .ch d => c == d
  | .rng a b => decide (a.toNat ≤ c.toNat) && decide (c.toNat ≤ b.toNat)

/-- Whether a character is matched by a class item list. -/
def cmemList (c : Char) (items : List CItem) : Bool :=
  items.any (cmem c)

/-- Syntax trees for the fragment of JavaScript regex syntax the module
emits: character classes, the class escape backslash-d, literal and escaped
single characters, concatenation, alternation, the postfix quantifiers
question mark, plus and brace-counted repetitions, and capturing and
non-capturing groups.  `star` never appears in a printed pattern; it is the
target of the derivative of `plus`.  `emp` and `eps` are the empty language
and the empty string, used by the derivative computation. -/
inductive Regex where
  | emp
  | eps
  | cls (items : List CItem)
  | dig
  | lit (c : Char)
  | esc (c : Char)
  | cat (r s : Regex)
  | alt (r s : Regex)
  | opt (r : Regex)
  | plus (r : Regex)
  | star (r : Regex)
  | rep (lo hi : Nat) (r : Regex)
  | ncg (r : Regex)
  | grp (r : Regex)

/-- Prints one class item back to its source syntax. -/
def CItem.print : CItem → String
  | .ch c => String.singleton c
  | .rng a b => String.singleton a ++ "-" ++ String.singleton b

/-- Prints a class item list back to its source syntax. -/
def printItems : List CItem → String
  | [] => ""
  | it :: rest => it.print ++ printItems rest

/-- Prints a syntax tree back to regex source syntax.  A brace-counted
repetition prints as an exact count when the two bounds agree and as a
range otherwise, matching the two forms the module uses. -/
def Regex.print : Regex → String
  | .emp => ""
  | .eps => ""
  | .cls items => "[" ++ printItems items ++ "]"
  | .dig => "\\d"
  | .lit c => String.singleton c
  | .esc c => "\\" ++ String.singleton c
  | .cat r s => r.print ++ s.print
  | .alt r s => r.print ++ "|" ++ s.print
  | .opt r => r.print ++ "?"
  | .plus r => r.print ++ "+"
  | .star r => r.print ++ "*"
  | .rep lo hi r =>
      r.print ++ (if lo == hi then "\x7b" ++ toString lo ++ "\x7d"
                  else "\x7b" ++ toString lo ++ "," ++ toString hi ++ "\x7d")
  | .ncg r => "(?:" ++ r.print ++ ")"
  | .grp r => "(" ++ r.print ++ ")"

/-- Whole-string matching semantics: `Lang r l` states that the character
list `l` is in the language of `r`.  Since every pattern the module emits
is wrapped in a leading caret and a trailing dollar, the JavaScript engine
accepts a string exactly when the whole string is in the language of the
pattern between the anchors, which is what this relation captures.  A
brace-counted repetition `rep lo hi r` unrolls one copy at a time,
decrementing both bounds, and may stop once the lower bound has reached
zero, so it accepts between `lo` and `hi` copies. -/
inductive Lang : Regex → List Char → Prop where
  | eps : Lang .eps []
  | cls {items : List CItem} {c : Char} :
      cmemList c items = true → Lang (.cls items) [c]
  | dig {c : Char} : c.isDigit = true → Lang .dig [c]
  | lit {c : Char} : Lang (.lit c) [c]
  | esc {c : Char} : Lang (.esc c) [c]
  | catI {r s : Regex} {u v : List Char} :
      Lang r u → Lang s v → Lang (.cat r s) (u ++ v)
  | altL {r s : Regex} {u : List Char} : Lang r u → Lang (.alt r s) u
  | altR {r s : Regex} {u : List Char} : Lang s u → Lang (.alt r s) u
  | optN {r : Regex} : Lang (.opt r) []
  | optS {r : Regex} {u : List Char} : Lang r u → Lang (.opt r) u
  | starN {r : Regex} : Lang (.star r) []
  | starC {r : Regex} {c : Char} {u v : List Char} :
      Lang r (c :: u) → Lang (.star r) v → Lang (.star r) (c :: (u ++ v))
  | plusI {r : Regex} {u v : List Char} :
      Lang r u → Lang (.star r) v → Lang (.plus r) (u ++ v)
  | repN {hi : Nat} {r : Regex} : Lang (.rep 0 hi r) []
  | repC {lo hi : Nat} {r : Regex} {u v : List Char} :
      Lang r u → Lang (.rep (lo - 1) hi r) v → Lang (.rep lo (hi + 1) r) (u ++ v)
  | ncgI {r : Regex} {u : List Char} : Lang r u → Lang (.ncg r) u
  | grpI {r : Regex} {u : List Char} : Lang r u → Lang (.grp r) u

/-- Nullability: whether the empty string is in the language. -/
def Regex.null : Regex → Bool
  | .emp => false
  | .eps => true
  | .cls _ => false
  | .dig => false
  | .lit _ => false
  | .esc _ => false
  | .cat r s => r.null && s.null
  | .alt r s => r.null || s.null
  | .opt _ => true
  | .plus r => r.null
  | .star _ => true
  | .rep lo hi r => if hi < lo then false else (lo == 0 || r.null)
  | .ncg r => r.null
  | .grp r => r.null

/-- Recognises the empty-language tree, for the smart constructors. -/
def isEmp : Regex → Bool
  | .emp => true
  | _ => false

/-- Recognises the empty-string tree, for the smart constructors. -/
def isEps : Regex → Bool
  | .eps => true
  | _ => false

/-- Concatenation smart constructor, absorbing `emp` and `eps` so that
derivative terms stay small. -/
def catS (r s : Regex) : Regex :=
  if isEmp r then .emp
  else if isEmp s then .emp
  else if isEps r then s
  else if isEps s then r
  else .cat r s

/-- Alternation smart constructor, absorbing `emp`. -/
def altS (r s : Regex) : Regex :=
  if isEmp r then s
  else if isEmp s then r
  else .alt r s

/-- Derivative of a brace-counted repetition, given the derivative `d` of
the body, the nullability `b` of the body and the body `r` itself: the
repetition `rep lo (hi+1) r` is one body copy followed by
`rep (lo-1) hi r`, and when the body is nullable that first copy may also
be empty, in which case the character is consumed by the remainder. -/
def derivRepAux (d : Regex) (b : Bool) (r : Regex) : Nat → Nat → Regex
  | _, 0 => .emp
  | lo, hi + 1 =>
      altS (catS d (.rep (lo - 1) hi r))
           (if b then derivRepAux d b r (lo - 1) hi else .emp)

/-- Brzozowski derivative: the language of `r.deriv c` is the set of `l`
with `c :: l` in the language of `r`. -/
def Regex.deriv : Regex → Char → Regex
  | .emp, _ => .emp
  | .eps, _ => .emp
  | .cls items, c => if cmemList c items then .eps else .emp
  | .dig, c => if c.isDigit then .eps else .emp
  | .lit d, c => if d == c then .eps else .emp
  | .esc d, c => if d == c then .eps else .emp
  | .cat r s, c =>
      if r.null then altS (catS (r.deriv c) s) (s.deriv c)
      else catS (r.deriv c) s
  | .alt r s, c => altS (r.deriv c) (s.deriv c)
  | .opt r, c => r.deriv c
  | .plus r, c => catS (r.deriv c) (.star r)
  | .star r, c => catS (r.deriv c) (.star r)
  | .rep lo hi r, c => derivRepAux (r.deriv c) r.null r lo hi
  | .ncg r, c => r.deriv c
  | .grp r, c => r.deriv c

/-- The matcher: fold the derivative over the characters and test
nullability of the residual. -/
def matchB (r : Regex) (l : List Char) : Bool :=
  (l.foldl Regex.deriv r).null

/-- Case-insensitivity closure of one class item, modelling the simple
case folding the JavaScript `i` flag performs on ASCII classes. -/
def CItem.ciClose : CItem → List CItem
  | .ch c => [.ch c, .ch c.toLower, .ch c.toUpper]
  | .rng a b => [.rng a b, .rng a.toLower b.toLower, .rng a.toUpper b.toUpper]

/-- Case-insensitivity closure of a tree: the compiled form of a pattern
whose flags string contains `i`. -/
def Regex.ciClose : Regex → Regex
  | .emp => .emp
  | .eps => .eps
  | .cls items => .cls (items.flatMap CItem.ciClose)
  | .dig => .dig
  | .lit c => .cls [.ch c, .ch c.toLower, .ch c.toUpper]
  | .esc c => .cls [.ch c, .ch c.toLower, .ch c.toUpper]
  | .cat r s => .cat r.ciClose s.ciClose
  | .alt r s => .alt r.ciClose s.ciClose
  | .opt r => .opt r.ciClose
  | .plus r => .plus r.ciClose
  | .star r => .star r.ciClose
  | .rep lo hi r => .rep lo hi r.ciClose
  | .ncg r => .ncg r.ciClose
  | .grp r => .grp r.ciClose

/-- Letters class `[a-zA-Z]`. -/
def lettersCls : Regex := .cls [.rng 'a' 'z', .rng 'A' 'Z']

/-- The default email pattern between the anchors:
`[a-zA-Z0-9._%+-]+@[a-zA-Z0-9.-]+\.[a-zA-Z]{2,63}`. -/
def emailDefaultAst : Regex :=
  .cat (.plus (.cls [.rng 'a' 'z', .rng 'A' 'Z', .rng '0' '9',
                     .ch '.', .ch '_', .ch '%', .ch '+', .ch '-']))
    (.cat (.lit '@')
      (.cat (.plus (.cls [.rng 'a' 'z', .rng 'A' 'Z', .rng '0' '9',
                          .ch '.', .ch '-']))
        (.cat (.esc '.') (.rep 2 63 lettersCls))))

/-- The email pattern with `allowSubdomains`: the default pattern followed
by an optional capturing group `(\.[a-zA-Z]{2})?`. -/
def emailSubAst : Regex :=
  .cat emailDefaultAst (.opt (.grp (.cat (.esc '.') (.rep 2 2 lettersCls))))

/-- The compiled default email pattern (flags contain `i`). -/
def emailDefaultRe : Regex := emailDefaultAst.ciClose

/-- The compiled subdomain email pattern (flags contain `i`). -/
def emailSubRe : Regex := emailSubAst.ciClose

/-- The strict CPF pattern between the anchors:
`\d{3}\.\d{3}\.\d{3}-\d{2}`. -/
def cpfStrictAst : Regex :=
  .cat (.rep 3 3 .dig)
    (.cat (.esc '.')
      (.cat (.rep 3 3 .dig)
        (.cat (.esc '.')
          (.cat (.rep 3 3 .dig)
            (.cat (.lit '-') (.rep 2 2 .dig))))))

/-- The relaxed CPF pattern between the anchors:
`\d{3}\.?\d{3}\.?\d{3}-?\d{2}`. -/
def cpfRelaxedAst : Regex :=
  .cat (.rep 3 3 .dig)
    (.cat (.opt (.esc '.'))
      (.cat (.rep 3 3 .dig)
        (.cat (.opt (.esc '.'))
          (.cat (.rep 3 3 .dig)
            (.cat (.opt (.lit '-')) (.rep 2 2 .dig))))))

/-- The strict CEP pattern between the anchors: `\d{5}-\d{3}`. -/
def cepStrictAst : Regex :=
  .cat (.rep 5 5 .dig) (.cat (.lit '-') (.rep 3 3 .dig))

/-- The relaxed CEP pattern between the anchors: `\d{5}-?\d{3}`. -/
def cepRelaxedAst : Regex :=
  .cat (.rep 5 5 .dig) (.cat (.opt (.lit '-')) (.rep 3 3 .dig))

/-- Lowercase hex class `[0-9a-f]`. -/
def hexCls : Regex := .cls [.rng '0' '9', .rng 'a' 'f']

/-- The UUID v4 pattern between the anchors:
`[0-9a-f]{8}-[0-9a-f]{4}-4[0-9a-f]{3}-[89ab][0-9a-f]{3}-[0-9a-f]{12}`. -/
def uuidAst : Regex :=
  .cat (.rep 8 8 hexCls)
    (.cat (.lit '-')
      (.cat (.rep 4 4 hexCls)
        (.cat (.lit '-')
          (.cat (.lit '4')
            (.cat (.rep 3 3 hexCls)
              (.cat (.lit '-')
                (.cat (.cls [.ch '8', .ch '9', .ch 'a', .ch 'b'])
                  (.cat (.rep 3 3 hexCls)
                    (.cat (.lit '-') (.rep 12 12 hexCls))))))))))

/-- The compiled UUID pattern (flags contain `i`). -/
def uuidRe : Regex := uuidAst.ciClose

/-- One IPv4 octet: `(?:25[0-5]|2[0-4]\d|1\d{2}|[1-9]?\d)`. -/
def octetAst : Regex :=
  .ncg (.alt (.cat (.lit '2') (.cat (.lit '5') (.cls [.rng '0' '5'])))
         (.alt (.cat (.lit '2') (.cat (.cls [.rng '0' '4']) .dig))
           (.alt (.cat (.lit '1') (.rep 2 2 .dig))
             (.cat (.opt (.cls [.rng '1' '9'])) .dig))))

/-- The base IPv4 pattern between the anchors: four octets separated by
escaped dots. -/
def ipv4BaseAst : Regex :=
  .cat octetAst
    (.cat (.esc '.')
      (.cat octetAst
        (.cat (.esc '.')
          (.cat octetAst (.cat (.esc '.') octetAst)))))

/-- The optional CIDR suffix: `(?:/(?:[0-9]|[12][0-9]|3[0-2]))?`. -/
def cidrAst : Regex :=
  .opt (.ncg (.cat (.lit '/')
    (.ncg (.alt (.cls [.rng '0' '9'])
            (.alt (.cat (.cls [.ch '1', .ch '2']) (.cls [.rng '0' '9']))
              (.cat (.lit '3') (.cls [.rng '0' '2'])))))))

/-- The IPv4 pattern with `allowCIDR` between the anchors. -/
def ipv4CIDRAst : Regex := .cat ipv4BaseAst cidrAst

/-- The empty-language tree accepts nothing. -/
theorem lang_emp_iff {l : List Char} : Lang .emp l ↔ False := by
  constructor
  · intro h; cases h
  · intro h; exact h.elim

/-- The empty-string tree accepts exactly the empty list. -/
theorem lang_eps_iff {l : List Char} : Lang .eps l ↔ l = [] := by
  constructor
  · intro h; cases h; rfl
  · rintro rfl; exact Lang.eps

/-- A class accepts a nonempty list exactly when it is that single
character and the character is in the class. -/
theorem lang_cls_cons {items : List CItem} {c : Char} {l : List Char} :
    Lang (.cls items) (c :: l) ↔ (l = [] ∧ cmemList c items = true) := by
  constructor
  · intro h; cases h with | cls hm => exact ⟨rfl, hm⟩
  · rintro ⟨rfl, hm⟩; exact Lang.cls hm

/-- A class accepts no empty list. -/
theorem lang_cls_nil {items : List CItem} : ¬ Lang (.cls items) [] := by
  intro h; cases h

/-- The digit escape on a nonempty list. -/
theorem lang_dig_cons {c : Char} {l : List Char} :
    Lang .dig (c :: l) ↔ (l = [] ∧ c.isDigit = true) := by
  constructor
  · intro h; cases h with | dig hd => exact ⟨rfl, hd⟩
  · rintro ⟨rfl, hd⟩; exact Lang.dig hd

/-- The digit escape rejects the empty list. -/
theorem lang_dig_nil : ¬ Lang .dig [] := by
  intro h; cases h

/-- A literal character on a nonempty list. -/
theorem lang_lit_cons {d c : Char} {l : List Char} :
    Lang (.lit d) (c :: l) ↔ (l = [] ∧ d = c) := by
  constructor
  · intro h; cases h; exact ⟨rfl, rfl⟩
  · rintro ⟨rfl, rfl⟩; exact Lang.lit

/-- A literal character rejects the empty list. -/
theorem lang_lit_nil {d : Char} : ¬ Lang (.lit d) [] := by
  intro h; cases h

/-- An escaped character on a nonempty list. -/
theorem lang_esc_cons {d c : Char} {l : List Char} :
    Lang (.esc d) (c :: l) ↔ (l = [] ∧ d = c) := by
  constructor
  · intro h; cases h; exact ⟨rfl, rfl⟩
  · rintro ⟨rfl, rfl⟩; exact Lang.esc

/-- An escaped character rejects the empty list. -/
theorem lang_esc_nil {d : Char} : ¬ Lang (.esc d) [] := by
  intro h; cases h

/-- Inversion for concatenation. -/
theorem lang_cat_iff {r s : Regex} {l : List Char} :
    Lang (.cat r s) l ↔ ∃ u v, l = u ++ v ∧ Lang r u ∧ Lang s v := by
  constructor
  · intro h; cases h with | catI hu hv => exact ⟨_, _, rfl, hu, hv⟩
  · rintro ⟨u, v, rfl, hu, hv⟩; exact Lang.catI hu hv

/-- Inversion for alternation. -/
theorem lang_alt_iff {r s : Regex} {l : List Char} :
    Lang (.alt r s) l ↔ Lang r l ∨ Lang s l := by
  constructor
  · intro h
    cases h with
    | altL h => exact Or.inl h
    | altR h => exact Or.inr h
  · rintro (h | h)
    · exact Lang.altL h
    · exact Lang.altR h

/-- Inversion for the optional quantifier. -/
theorem lang_opt_iff {r : Regex} {l : List Char} :
    Lang (.opt r) l ↔ l = [] ∨ Lang r l := by
  constructor
  · intro h
    cases h with
    | optN => exact Or.inl rfl
    | optS h => exact Or.inr h
  · rintro (rfl | h)
    · exact Lang.optN
    · exact Lang.optS h

/-- Inversion for a non-capturing group. -/
theorem lang_ncg_iff {r : Regex} {l : List Char} :
    Lang (.ncg r) l ↔ Lang r l := by
  constructor
  · intro h; cases h with | ncgI h => exact h
  · exact Lang.ncgI

/-- Inversion for a capturing group. -/
theorem lang_grp_iff {r : Regex} {l : List Char} :
    Lang (.grp r) l ↔ Lang r l := by
  constructor
  · intro h; cases h with | grpI h => exact h
  · exact Lang.grpI

/-- Inversion for a star on a nonempty list: a first nonempty chunk is
matched by the body and the rest again by the star. -/
theorem lang_star_cons {r : Regex} {c : Char} {l : List Char}
    (h : Lang (.star r) (c :: l)) :
    ∃ u v, l = u ++ v ∧ Lang r (c :: u) ∧ Lang (.star r) v := by
  cases h with
  | starC hu hv => exact ⟨_, _, rfl, hu, hv⟩

/-- Inversion for plus. -/
theorem lang_plus_inv {r : Regex} {l : List Char} (h : Lang (.plus r) l) :
    ∃ u v, l = u ++ v ∧ Lang r u ∧ Lang (.star r) v := by
  cases h with
  | plusI hu hv => exact ⟨_, _, rfl, hu, hv⟩

/-- Inversion for a brace-counted repetition. -/
theorem lang_rep_inv {lo hi : Nat} {r : Regex} {l : List Char}
    (h : Lang (.rep lo hi r) l) :
    (lo = 0 ∧ l = []) ∨
      ∃ h', hi = h' + 1 ∧
        ∃ u v, l = u ++ v ∧ Lang r u ∧ Lang (.rep (lo - 1) h' r) v := by
  cases h with
  | repN => exact Or.inl ⟨rfl, rfl⟩
  | repC hu hv => exact Or.inr ⟨_, rfl, _, _, rfl, hu, hv⟩

/-- A tree recognised by `isEmp` is `emp`. -/
theorem isEmp_eq {r : Regex} (h : isEmp r = true) : r = .emp := by
  cases r <;> simp [isEmp] at h ⊢

/-- A tree recognised by `isEps` is `eps`. -/
theorem isEps_eq {r : Regex} (h : isEps r = true) : r = .eps := by
  cases r <;> simp [isEps] at h ⊢

/-- The alternation smart constructor has the language of `alt`. -/
theorem lang_altS {r s : Regex} {l : List Char} :
    Lang (altS r s) l ↔ Lang r l ∨ Lang s l := by
  unfold altS
  split
  · next h => obtain rfl := isEmp_eq h; simp [lang_emp_iff]
  · split
    · next h => obtain rfl := isEmp_eq h; simp [lang_emp_iff]
    · exact lang_alt_iff

/-- The concatenation smart constructor has the language of `cat`. -/
theorem lang_catS {r s : Regex} {l : List Char} :
    Lang (catS r s) l ↔ ∃ u v, l = u ++ v ∧ Lang r u ∧ Lang s v := by
  unfold catS
  split
  · next h => obtain rfl := isEmp_eq h; simp [lang_emp_iff]
  · split
    · next h => obtain rfl := isEmp_eq h; simp [lang_emp_iff]
    · split
      · next h =>
          obtain rfl := isEps_eq h
          constructor
          · intro hs; exact ⟨[], l, rfl, Lang.eps, hs⟩
          · rintro ⟨u, v, rfl, hu, hv⟩
            rw [lang_eps_iff] at hu
            subst hu
            exact hv
      · split
        · next h =>
            obtain rfl := isEps_eq h
            constructor
            · intro hr; exact ⟨l, [], (List.append_nil l).symm, hr, Lang.eps⟩
            · rintro ⟨u, v, rfl, hu, hv⟩
              rw [lang_eps_iff] at hv
              subst hv
              simpa using hu
        · exact lang_cat_iff

/-- A repetition accepts the empty list when its body does and the bounds
allow, by taking the minimum number of empty copies. -/
theorem lang_rep_nil {r : Regex} :
    ∀ lo hi : Nat, lo ≤ hi → Lang r [] → Lang (.rep lo hi r) []
  | 0, _, _, _ => Lang.repN
  | lo + 1, 0, hle, _ => absurd hle (by omega)
  | lo + 1, hi + 1, hle, hr => by
      have ih := lang_rep_nil lo hi (by omega) hr
      exact Lang.repC hr ih

/-- Converse direction for `lang_rep_nil`. -/
theorem lang_rep_nil_inv {r : Regex} (hi : Nat) :
    ∀ lo : Nat, Lang (.rep lo hi r) [] → lo = 0 ∨ (lo ≤ hi ∧ Lang r []) := by
  induction hi with
  | zero =>
      intro lo h
      rcases lang_rep_inv h with ⟨h0, -⟩ | ⟨h', heq, -⟩
      · exact Or.inl h0
      · exact absurd heq (by omega)
  | succ n ih =>
      intro lo h
      rcases lang_rep_inv h with ⟨h0, -⟩ | ⟨h', heq, u, v, huv, hu, hv⟩
      · exact Or.inl h0
      · have hn : h' = n := by omega
        subst hn
        obtain ⟨rfl, rfl⟩ : u = [] ∧ v = [] := List.append_eq_nil.mp huv.symm
        rcases ih (lo - 1) hv with h1 | ⟨h2, -⟩
        · by_cases hlo : lo = 0
          · exact Or.inl hlo
          · exact Or.inr ⟨by omega, hu⟩
        · exact Or.inr ⟨by omega, hu⟩

/-- Nullability decides membership of the empty list. -/
theorem null_iff : ∀ r : Regex, r.null = true ↔ Lang r []
  | .emp => by simp [Regex.null, lang_emp_iff]
  | .eps => by simp [Regex.null]; exact Lang.eps
  | .cls items => by simp [Regex.null, lang_cls_nil]
  | .dig => by simp [Regex.null, lang_dig_nil]
  | .lit d => by simp [Regex.null, lang_lit_nil]
  | .esc d => by simp [Regex.null, lang_esc_nil]
  | .cat r s => by
      rw [show (Regex.cat r s).null = (r.null && s.null) from rfl,
          Bool.and_eq_true, null_iff r, null_iff s, lang_cat_iff]
      constructor
      · rintro ⟨hr, hs⟩; exact ⟨[], [], rfl, hr, hs⟩
      · rintro ⟨u, v, huv, hu, hv⟩
        obtain ⟨rfl, rfl⟩ : u = [] ∧ v = [] := List.append_eq_nil.mp huv.symm
        exact ⟨hu, hv⟩
  | .alt r s => by
      rw [show (Regex.alt r s).null = (r.null || s.null) from rfl,
          Bool.or_eq_true, null_iff r, null_iff s, lang_alt_iff]
  | .opt r => by
      rw [show (Regex.opt r).null = true from rfl, lang_opt_iff]
      simp
  | .plus r => by
      rw [show (Regex.plus r).null = r.null from rfl, null_iff r]
      constructor
      · intro h
        exact Lang.plusI h Lang.starN
      · intro h
        rcases lang_plus_inv h with ⟨u, v, huv, hu, -⟩
        obtain ⟨rfl, -⟩ : u = [] ∧ v = [] := List.append_eq_nil.mp huv.symm
        exact hu
  | .star r => by
      rw [show (Regex.star r).null = true from rfl]
      simp
      exact Lang.starN
  | .rep lo hi r => by
      rw [show (Regex.rep lo hi r).null
            = (if hi < lo then false else (lo == 0 || r.null)) from rfl]
      constructor
      · intro h
        split at h
        · exact absurd h (by simp)
        · next hle =>
            rw [Bool.or_eq_true] at h
            rcases h with h0 | hr
            · have h0' : lo = 0 := by simpa using h0
              subst h0'
              exact Lang.repN
            · exact lang_rep_nil lo hi (by omega) ((null_iff r).mp hr)
      · intro h
        rcases lang_rep_nil_inv hi lo h with rfl | ⟨hle, hr⟩
        · simp
        · have : ¬ hi < lo := by omega
          rw [if_neg this, Bool.or_eq_true, null_iff r]
          exact Or.inr hr
  | .ncg r => by
      rw [show (Regex.ncg r).null = r.null from rfl, null_iff r, lang_ncg_iff]
  | .grp r => by
      rw [show (Regex.grp r).null = r.null from rfl, null_iff r, lang_grp_iff]

/-- Derivative correctness for a brace-counted repetition, by induction on
the upper bound, given correctness for the body. -/
theorem derivRepAux_iff {r : Regex} {c : Char}
    (ihr : ∀ l : List Char, Lang (r.deriv c) l ↔ Lang r (c :: l)) :
    ∀ (hi lo : Nat) (l : List Char),
      Lang (derivRepAux (r.deriv c) r.null r lo hi) l ↔
        Lang (.rep lo hi r) (c :: l) := by
  intro hi
  induction hi with
  | zero =>
      intro lo l
      rw [show derivRepAux (r.deriv c) r.null r lo 0 = .emp from rfl, lang_emp_iff]
      constructor
      · exact False.elim
      · intro h
        rcases lang_rep_inv h with ⟨-, h2⟩ | ⟨h', heq, -⟩
        · exact absurd h2 (List.cons_ne_nil _ _)
        · exact absurd heq (by omega)
  | succ n ih =>
      intro lo l
      rw [show derivRepAux (r.deriv c) r.null r lo (n + 1)
            = altS (catS (r.deriv c) (.rep (lo - 1) n r))
                (if r.null then derivRepAux (r.deriv c) r.null r (lo - 1) n
                 else .emp) from rfl,
          lang_altS, lang_catS]
      constructor
      · rintro (⟨u, v, rfl, hu, hv⟩ | hrest)
        · exact Lang.repC ((ihr u).mp hu) hv
        · by_cases hb : r.null = true
          · rw [if_pos hb] at hrest
            exact Lang.repC ((null_iff r).mp hb) ((ih (lo - 1) l).mp hrest)
          · rw [if_neg hb] at hrest
            exact absurd hrest (lang_emp_iff.mp ∘ id)
      · intro h
        rcases lang_rep_inv h with ⟨-, h2⟩ | ⟨h', heq, u, v, huv, hu, hv⟩
        · exact absurd h2 (List.cons_ne_nil _ _)
        · have hn : h' = n := by omega
          rw [hn] at hv
          cases u with
          | nil =>
              right
              have hb : r.null = true := (null_iff r).mpr hu
              rw [if_pos hb]
              have hv' : Lang (.rep (lo - 1) n r) (c :: l) := by
                have hveq : v = c :: l := by simpa using huv.symm
                exact hveq ▸ hv
              exact (ih (lo - 1) l).mpr hv'
          | cons c' u' =>
              left
              have hcu : c = c' ∧ l = u' ++ v := by
                have h2 : c :: l = c' :: (u' ++ v) := by simpa using huv
                exact ⟨by injection h2, by injection h2⟩
              obtain ⟨rfl, rfl⟩ := hcu
              exact ⟨u', v, rfl, (ihr u').mpr hu, hv⟩

/-- Derivative correctness: `r.deriv c` accepts `l` exactly when `r`
accepts `c :: l`. -/
theorem deriv_iff : ∀ (r : Regex) (c : Char) (l : List Char),
    Lang (r.deriv c) l ↔ Lang r (c :: l)
  | .emp, c, l => by
      rw [show Regex.emp.deriv c = .emp from rfl, lang_emp_iff, lang_emp_iff]
  | .eps, c, l => by
      rw [show Regex.eps.deriv c = .emp from rfl, lang_emp_iff, lang_eps_iff]
      simp
  | .cls items, c, l => by
      rw [show (Regex.cls items).deriv c
            = (if cmemList c items then .eps else .emp) from rfl, lang_cls_cons]
      split
      · next h => rw [lang_eps_iff]; simp [h]
      · next h => rw [lang_emp_iff]; simp [h]
  | .dig, c, l => by
      rw [show Regex.dig.deriv c = (if c.isDigit then .eps else .emp) from rfl,
          lang_dig_cons]
      split
      · next h => rw [lang_eps_iff]; simp [h]
      · next h => rw [lang_emp_iff]; simp [h]
  | .lit d, c, l => by
      rw [show (Regex.lit d).deriv c = (if d == c then .eps else .emp) from rfl,
          lang_lit_cons]
      split
      · next h => rw [lang_eps_iff]; simp [beq_iff_eq.mp h]
      · next h => rw [lang_emp_iff]; simp; intro; exact (by simpa using h)
  | .esc d, c, l => by
      rw [show (Regex.esc d).deriv c = (if d == c then .eps else .emp) from rfl,
          lang_esc_cons]
      split
      · next h => rw [lang_eps_iff]; simp [beq_iff_eq.mp h]
      · next h => rw [lang_emp_iff]; simp; intro; exact (by simpa using h)
  | .cat r s, c, l => by
      rw [show (Regex.cat r s).deriv c
            = (if r.null then altS (catS (r.deriv c) s) (s.deriv c)
               else catS (r.deriv c) s) from rfl]
      split
      · next hn =>
          rw [lang_altS, lang_catS, lang_cat_iff]
          constructor
          · rintro (⟨u, v, rfl, hu, hv⟩ | hs)
            · exact ⟨c :: u, v, rfl, (deriv_iff r c u).mp hu, hv⟩
            · exact ⟨[], c :: l, rfl, (null_iff r).mp hn, (deriv_iff s c l).mp hs⟩
          · rintro ⟨u, v, huv, hu, hv⟩
            cases u with
            | nil =>
                right
                have hveq : v = c :: l := by simpa using huv.symm
                exact (deriv_iff s c l).mpr (hveq ▸ hv)
            | cons c' u' =>
                left
                have hcu : c = c' ∧ l = u' ++ v := by
                  have h2 : c :: l = c' :: (u' ++ v) := by simpa using huv
                  exact ⟨by injection h2, by injection h2⟩
                obtain ⟨rfl, rfl⟩ := hcu
                exact ⟨u', v, rfl, (deriv_iff r c u').mpr hu, hv⟩
      · next hn =>
          rw [lang_catS, lang_cat_iff]
          constructor
          · rintro ⟨u, v, rfl, hu, hv⟩
            exact ⟨c :: u, v, rfl, (deriv_iff r c u).mp hu, hv⟩
          · rintro ⟨u, v, huv, hu, hv⟩
            cases u with
            | nil => exact absurd ((null_iff r).mpr hu) (by simpa using hn)
            | cons c' u' =>
                have hcu : c = c' ∧ l = u' ++ v := by
                  have h2 : c :: l = c' :: (u' ++ v) := by simpa using huv
                  exact ⟨by injection h2, by injection h2⟩
                obtain ⟨rfl, rfl⟩ := hcu
                exact ⟨u', v, rfl, (deriv_iff r c u').mpr hu, hv⟩
  | .alt r s, c, l => by
      rw [show (Regex.alt r s).deriv c = altS (r.deriv c) (s.deriv c) from rfl,
          lang_altS, lang_alt_iff]
      exact or_congr (deriv_iff r c l) (deriv_iff s c l)
  | .opt r, c, l => by
      rw [show (Regex.opt r).deriv c = r.deriv c from rfl, lang_opt_iff]
      simp [deriv_iff r c l]
  | .plus r, c, l => by
      rw [show (Regex.plus r).deriv c = catS (r.deriv c) (.star r) from rfl,
          lang_catS]
      constructor
      · rintro ⟨u, v, rfl, hu, hv⟩
        exact Lang.plusI ((deriv_iff r c u).mp hu) hv
      · intro h
        rcases lang_plus_inv h with ⟨u, v, huv, hu, hv⟩
        cases u with
        | nil =>
            have hveq : v = c :: l := by simpa using huv.symm
            rcases lang_star_cons (hveq ▸ hv) with ⟨w, v', rfl, hw, hv'⟩
            exact ⟨w, v', rfl, (deriv_iff r c w).mpr hw, hv'⟩
        | cons c' u' =>
            have hcu : c = c' ∧ l = u' ++ v := by
              have h2 : c :: l = c' :: (u' ++ v) := by simpa using huv
              exact ⟨by injection h2, by injection h2⟩
            obtain ⟨rfl, rfl⟩ := hcu
            exact ⟨u', v, rfl, (deriv_iff r c u').mpr hu, hv⟩
  | .star r, c, l => by
      rw [show (Regex.star r).deriv c = catS (r.deriv c) (.star r) from rfl,
          lang_catS]
      constructor
      · rintro ⟨u, v, rfl, hu, hv⟩
        exact Lang.starC ((deriv_iff r c u).mp hu) hv
      · intro h
        rcases lang_star_cons h with ⟨u, v, rfl, hu, hv⟩
        exact ⟨u, v, rfl, (deriv_iff r c u).mpr hu, hv⟩
  | .rep lo hi r, c, l => by
      rw [show (Regex.rep lo hi r).deriv c
            = derivRepAux (r.deriv c) r.null r lo hi from rfl]
      exact derivRepAux_iff (fun l' => deriv_iff r c l') hi lo l
  | .ncg r, c, l => by
      rw [show (Regex.ncg r).deriv c = r.deriv c from rfl, lang_ncg_iff]
      exact deriv_iff r c l
  | .grp r, c, l => by
      rw [show (Regex.grp r).deriv c = r.deriv c from rfl, lang_grp_iff]
      exact deriv_iff r c l

/-- The matcher decides the matching semantics. -/
theorem matchB_iff : ∀ (l : List Char) (r : Regex), matchB r l = true ↔ Lang r l
  | [], r => null_iff r
  | c :: l, r => (matchB_iff l (r.deriv c)).trans (deriv_iff r c l)

/-- Matching against a concrete character list is decidable, through the
matcher. -/
instance langDecidable (r : Regex) (l : List Char) : Decidable (Lang r l) :=
  decidable_of_iff (matchB r l = true) (matchB_iff l r)

/-- Reading a key from an options record ignores a prepended entry with a
different key, as JavaScript property access ignores unrelated properties. -/
theorem getOpt_cons_ne {key k : String} (hne : key ≠ k) (v : Bool)
    (options : Options) :
    getOpt ((k, v) :: options) key = getOpt options key := by
  have h : (key == k) = false := by simpa using hne
  simp [getOpt, List.lookup, h]

/-- Concatenation is monotone with respect to language inclusion. -/
theorem lang_mono_cat {a a' b b' : Regex}
    (ha : ∀ u, Lang a u → Lang a' u) (hb : ∀ u, Lang b u → Lang b' u) :
    ∀ u, Lang (.cat a b) u → Lang (.cat a' b') u := by
  intro u h
  rcases lang_cat_iff.mp h with ⟨x, y, rfl, hx, hy⟩
  exact Lang.catI (ha x hx) (hb y hy)

/-- Appending an optional tail keeps every accepted list accepted. -/
theorem lang_cat_opt_of {r q : Regex} {u : List Char} (h : Lang r u) :
    Lang (.cat r (.opt q)) u := by
  have h2 : Lang (.cat r (.opt q)) (u ++ []) := Lang.catI h Lang.optN
  simpa using h2

/-- C1 counterexample: for the registered category `cpf`, whose declared
criterion default is `allowOptionalSymbols = true`, the generator applied
to an empty options record returns a different `{pattern, flags}` result
from the generator applied to the defaults-filled record — the empty-record
fallback is the strict pattern, not the declared-default relaxed one — so
the generator's fallback behaviour does not agree with the registry's
declared defaults for every category. -/
theorem cpf_empty_options_differs_from_defaults :
    (RegexCategories.lookup "cpf").map (fun d => defaultsOf d)
        = some [("allowOptionalSymbols", true)] ∧
    (RegexCategories.lookup "cpf").map (fun d => d.generator [])
        ≠ (RegexCategories.lookup "cpf").map (fun d => d.generator (defaultsOf d)) := by
  refine ⟨by decide, by decide⟩

/-- C1 (amended): for every registered category other than `cpf` and
`cep`, generating with an empty options record never fails and returns the
same `{pattern, flags}` result as generating with every declared criterion
filled in with its registry default value; for `cpf` and `cep`, whose
declared `allowOptionalSymbols` default is `true`, the empty-record result
is the strict pattern and differs from the defaults-filled result. -/
theorem generator_empty_agrees_with_defaults_except_cpf_cep :
    ∀ p ∈ RegexCategories, p.1 ≠ "cpf" → p.1 ≠ "cep" →
      p.2.generator [] = p.2.generator (defaultsOf p.2) := by
  intro p hp h1 h2
  simp only [RegexCategories, List.mem_cons, List.not_mem_nil, or_false] at hp
  rcases hp with rfl | rfl | rfl | rfl | rfl
  · decide
  · exact absurd rfl h1
  · exact absurd rfl h2
  · decide
  · decide

/-- Witness for the amended C1 theorem, at the `email` category. -/
theorem generator_empty_agrees_witness :
    emailCategory.generator [] = emailCategory.generator (defaultsOf emailCategory) :=
  generator_empty_agrees_with_defaults_except_cpf_cep ("email", emailCategory)
    (by simp [RegexCategories]) (by decide) (by decide)

/-- C2 (code-bug demonstration): the default email pattern is exactly the
printed `emailDefaultAst` between anchors, with flags `i`, and under the
matching semantics it accepts `user@example.com` — but it also accepts
`user@example.com.br`: the domain class `[a-zA-Z0-9.-]` already contains
the dot, so a subdomain suffix is accepted even with default options,
contrary to the claim and to the intent of the `allowSubdomains`
criterion. -/
theorem email_default_accepts_subdomain_suffix :
    (generateEmailRegex []).pattern = "^" ++ emailDefaultAst.print ++ "$" ∧
    (generateEmailRegex []).flags = "i" ∧
    Lang emailDefaultRe ("user@example.com".data) ∧
    Lang emailDefaultRe ("user@example.com.br".data) := by
  refine ⟨rfl, rfl, by decide, by decide⟩

/-- C3 counterexample: with default options the IPv4 pattern (printed form
of `ipv4BaseAst` between anchors) accepts `1.2.3.4` and also accepts its
proper extension `1.2.3.45`, so it is not true that no proper extension of
a matching string matches. -/
theorem ipv4_matching_extension_also_matches :
    (generateIPv4Regex []).pattern = "^" ++ ipv4BaseAst.print ++ "$" ∧
    Lang ipv4BaseAst ("1.2.3.4".data) ∧
    Lang ipv4BaseAst (("1.2.3.4" ++ "5").data) := by
  refine ⟨rfl, by decide, by decide⟩

/-- C3 (amended): for every registered category and every options record,
the generated pattern string begins with the anchor character caret and
ends with the anchor character dollar, so the engine is asked to match the
entire input string rather than a substring (a proper extension of a
matching string may nevertheless itself be in the pattern's language). -/
theorem patterns_anchored :
    ∀ p ∈ RegexCategories, ∀ options : Options,
      ((p.2.generator options).pattern.data.head? = some '^') ∧
      ((p.2.generator options).pattern.data.getLast? = some '$') := by
  intro p hp options
  simp only [RegexCategories, List.mem_cons, List.not_mem_nil, or_false] at hp
  rcases hp with rfl | rfl | rfl | rfl | rfl
  · show ((generateEmailRegex options).pattern.data.head? = some '^') ∧
      ((generateEmailRegex options).pattern.data.getLast? = some '$')
    unfold generateEmailRegex
    split <;> exact ⟨by decide, by decide⟩
  · show ((generateCPFRegex options).pattern.data.head? = some '^') ∧
      ((generateCPFRegex options).pattern.data.getLast? = some '$')
    unfold generateCPFRegex
    split <;> exact ⟨by decide, by decide⟩
  · show ((generateCEPRegex options).pattern.data.head? = some '^') ∧
      ((generateCEPRegex options).pattern.data.getLast? = some '$')
    unfold generateCEPRegex
    split <;> exact ⟨by decide, by decide⟩
  · show (generateUUIDRegex.pattern.data.head? = some '^') ∧
      (generateUUIDRegex.pattern.data.getLast? = some '$')
    exact ⟨by decide, by decide⟩
  · show ((generateIPv4Regex options).pattern.data.head? = some '^') ∧
      ((generateIPv4Regex options).pattern.data.getLast? = some '$')
    unfold generateIPv4Regex
    split <;> exact ⟨by decide, by decide⟩

/-- Witness for the amended C3 theorem, at the `email` category with an
empty options record. -/
theorem patterns_anchored_witness :
    ((emailCategory.generator []).pattern.data.head? = some '^') ∧
    ((emailCategory.generator []).pattern.data.getLast? = some '$') :=
  patterns_anchored ("email", emailCategory) (by simp [RegexCategories]) []

/-- C4: the IPv4 default pattern (printed form of `ipv4BaseAst` between
anchors, empty flags) accepts `255.255.255.255` and rejects `256.0.0.1`;
with `allowCIDR` the pattern (printed form of `ipv4CIDRAst`) accepts
`10.0.0.0/24` and rejects `10.0.0.0/33`. -/
theorem ipv4_examples :
    (generateIPv4Regex []).pattern = "^" ++ ipv4BaseAst.print ++ "$" ∧
    (generateIPv4Regex [("allowCIDR", true)]).pattern
        = "^" ++ ipv4CIDRAst.print ++ "$" ∧
    (generateIPv4Regex []).flags = "" ∧
    Lang ipv4BaseAst ("255.255.255.255".data) ∧
    ¬ Lang ipv4BaseAst ("256.0.0.1".data) ∧
    Lang ipv4CIDRAst ("10.0.0.0/24".data) ∧
    ¬ Lang ipv4CIDRAst ("10.0.0.0/33".data) := by
  refine ⟨rfl, rfl, rfl, by decide, by decide, by decide, by decide⟩

/-- C5: the strict CPF pattern (criterion false) accepts `123.456.789-09`
and rejects `12345678909`; the relaxed pattern (criterion true) accepts
both and rejects `123-456.789.09`, whose separators sit in the wrong
positions. -/
theorem cpf_examples :
    (generateCPFRegex [("allowOptionalSymbols", false)]).pattern
        = "^" ++ cpfStrictAst.print ++ "$" ∧
    (generateCPFRegex [("allowOptionalSymbols", true)]).pattern
        = "^" ++ cpfRelaxedAst.print ++ "$" ∧
    (generateCPFRegex []).flags = "" ∧
    Lang cpfStrictAst ("123.456.789-09".data) ∧
    ¬ Lang cpfStrictAst ("12345678909".data) ∧
    Lang cpfRelaxedAst ("123.456.789-09".data) ∧
    Lang cpfRelaxedAst ("12345678909".data) ∧
    ¬ Lang cpfRelaxedAst ("123-456.789.09".data) := by
  refine ⟨rfl, rfl, rfl, by decide, by decide, by decide, by decide, by decide⟩

/-- C6: the UUID pattern (printed form of `uuidAst` between anchors, flags
`i`, with the version nibble the literal `4` and the variant nibble the
class `[89ab]`) accepts `550e8400-e29b-41d4-a716-446655440000` and rejects
the same string with the version nibble changed to `3`. -/
theorem uuid_examples :
    generateUUIDRegex.pattern = "^" ++ uuidAst.print ++ "$" ∧
    generateUUIDRegex.flags = "i" ∧
    Lang uuidRe ("550e8400-e29b-41d4-a716-446655440000".data) ∧
    ¬ Lang uuidRe ("550e8400-e29b-31d4-a716-446655440000".data) := by
  refine ⟨rfl, rfl, by decide, by decide⟩

/-- C7: the relaxed CEP pattern (criterion true; printed form of
`cepRelaxedAst` between anchors, empty flags) accepts both `01310-100` and
`01310100` and rejects `01310 100`, since a space is not an accepted
separator. -/
theorem cep_examples :
    (generateCEPRegex [("allowOptionalSymbols", true)]).pattern
        = "^" ++ cepRelaxedAst.print ++ "$" ∧
    (generateCEPRegex [("allowOptionalSymbols", true)]).flags = "" ∧
    Lang cepRelaxedAst ("01310-100".data) ∧
    Lang cepRelaxedAst ("01310100".data) ∧
    ¬ Lang cepRelaxedAst ("01310 100".data) := by
  refine ⟨rfl, rfl, by decide, by decide, by decide⟩

/-- C8: each generator invoked with no options argument at all (the
JavaScript default parameter `options = {}`, embedded as the Lean default
argument) returns exactly the result of invoking it with an empty options
record; the parameterless UUID generator returns the same result as its
registry wrapper applied to an empty record. -/
theorem generators_no_argument_default :
    generateEmailRegex = generateEmailRegex [] ∧
    generateCPFRegex = generateCPFRegex [] ∧
    generateCEPRegex = generateCEPRegex [] ∧
    generateIPv4Regex = generateIPv4Regex [] ∧
    generateUUIDRegex = uuidCategory.generator [] :=
  ⟨rfl, rfl, rfl, rfl, rfl⟩

/-- C9: for every registered category, prepending an options entry whose
key is not among the declared criterion ids leaves the generator's
`{pattern, flags}` result unchanged. -/
theorem unknown_option_keys_ignored :
    ∀ p ∈ RegexCategories, ∀ (k : String) (v : Bool) (options : Options),
      k ∉ p.2.criteria.map (fun c => c.id) →
      p.2.generator ((k, v) :: options) = p.2.generator options := by
  intro p hp k v options hk
  simp only [RegexCategories, List.mem_cons, List.not_mem_nil, or_false] at hp
  rcases hp with rfl | rfl | rfl | rfl | rfl
  · have hk' : k ≠ "allowSubdomains" := by simpa [emailCategory] using hk
    show generateEmailRegex ((k, v) :: options) = generateEmailRegex options
    unfold generateEmailRegex
    rw [getOpt_cons_ne (Ne.symm hk')]
  · have hk' : k ≠ "allowOptionalSymbols" := by simpa [cpfCategory] using hk
    show generateCPFRegex ((k, v) :: options) = generateCPFRegex options
    unfold generateCPFRegex
    rw [getOpt_cons_ne (Ne.symm hk')]
  · have hk' : k ≠ "allowOptionalSymbols" := by simpa [cepCategory] using hk
    show generateCEPRegex ((k, v) :: options) = generateCEPRegex options
    unfold generateCEPRegex
    rw [getOpt_cons_ne (Ne.symm hk')]
  · rfl
  · have hk' : k ≠ "allowCIDR" := by simpa [ipv4Category] using hk
    show generateIPv4Regex ((k, v) :: options) = generateIPv4Regex options
    unfold generateIPv4Regex
    rw [getOpt_cons_ne (Ne.symm hk')]

/-- Witness for C9, at the `email` category with an unrecognized key. -/
theorem unknown_option_keys_ignored_witness :
    emailCategory.generator [("someFutureOption", true)]
        = emailCategory.generator [] :=
  unknown_option_keys_ignored ("email", emailCategory)
    (by simp [RegexCategories]) "someFutureOption" true [] (by decide)

/-- C10: for the email, cpf, cep and ipv4 categories, setting the single
boolean criterion to true only relaxes the pattern: any character list
accepted by the criterion-false pattern, compiled with its flags (the
case-insensitive closure for email), is also accepted by the
criterion-true pattern compiled the same way. -/
theorem criterion_true_only_relaxes :
    ∀ l : List Char,
      (Lang emailDefaultRe l → Lang emailSubRe l) ∧
      (Lang cpfStrictAst l → Lang cpfRelaxedAst l) ∧
      (Lang cepStrictAst l → Lang cepRelaxedAst l) ∧
      (Lang ipv4BaseAst l → Lang ipv4CIDRAst l) := by
  intro l
  refine ⟨fun h => lang_cat_opt_of h, ?_, ?_, fun h => lang_cat_opt_of h⟩
  · intro h
    refine lang_mono_cat (fun u hu => hu) ?_ l h
    refine lang_mono_cat (fun u hu => Lang.optS hu) ?_
    refine lang_mono_cat (fun u hu => hu) ?_
    refine lang_mono_cat (fun u hu => Lang.optS hu) ?_
    refine lang_mono_cat (fun u hu => hu) ?_
    exact lang_mono_cat (fun u hu => Lang.optS hu) (fun u hu => hu)
  · intro h
    refine lang_mono_cat (fun u hu => hu) ?_ l h
    exact lang_mono_cat (fun u hu => Lang.optS hu) (fun u hu => hu)

/-- Witness for C10, applying each inclusion at a concrete accepted
list. -/
theorem criterion_true_only_relaxes_witness :
    Lang emailSubRe ("user@example.com".data) ∧
    Lang cpfRelaxedAst ("123.456.789-09".data) ∧
    Lang cepRelaxedAst ("01310-100".data) ∧
    Lang ipv4CIDRAst ("10.0.0.0".data) :=
  ⟨(criterion_true_only_relaxes _).1 (by decide),
   (criterion_true_only_relaxes _).2.1 (by decide),
   (criterion_true_only_relaxes _).2.2.1 (by decide),
   (criterion_true_only_relaxes _).2.2.2 (by decide)⟩

end RegexGen
